import Mathlib

/-!
# Verification of the Twilio–Gemini caller core

Shallow embedding of the audio transcoding pipeline (`audioCodec.ts`), the
tool registry (`toolRegistry.ts`) and the call session orchestrator
(`twilioStreamHandler`, the media-stream handler source file), together with
proofs of the spec's testable properties.

Modelling conventions:
* PCM frames are `List Int`; μ-law byte frames are `List Nat` (each < 256).
* JavaScript `Int16Array` stores wrap to signed 16-bit; `toInt16` models a
  store.  Reads from an `Int16Array` always yield in-range values, so
  validity hypotheses `-32768 ≤ s ∧ s ≤ 32767` accompany frame inputs.
* JS bit operations on small non-negative numbers are rendered as `/`, `%`
  and `2 ^ _` arithmetic: for `0 ≤ x < 256`, `x & 0x80 ≠ 0 ↔ 128 ≤ x`,
  `(x >> 4) & 7 = x / 16 % 8`, `x & 0xf = x % 16`, `~x & 0xff = 255 - x`;
  `x << k = x * 2 ^ k`, `x >> k = x / 2 ^ k`.
* `Math.floor(Math.log2 m)` for an integer `m ≥ 1` is `Nat.log2 m`.
* `Math.floor` on an exact rational quotient is `Int.fdiv` (floor division)
  for integer/3 quotients, and `Int.floor` on `ℚ` in the generic resampler.
-/

/-! ## Codec engine (`backend/src/utils/audioCodec.ts`) -/

/-- Result of storing an integer into a JS `Int16Array` slot (wrap to
signed 16-bit). -/
def toInt16 (x : Int) : Int := (x + 32768) % 65536 - 32768

/-- `AudioCodec.BIAS = 0x84`. -/
def BIAS : Nat := 0x84

/-- `AudioCodec.CLIP = 32635`. -/
def CLIP : Nat := 32635

/-- μ-law decode of one byte, as computed by `generateMuLawTable` for index
`i`: `byte = ~i & 0xff`; sign is bit 7, exponent bits 4–6, mantissa bits
0–3; `sample = ((mantissa << 3) + 0x84) << exponent; sample -= BIAS`;
negated when the sign bit is set.  `MU_LAW_TABLE[i]` equals
`ulaw2pcmSample i` for every byte `i`. -/
def ulaw2pcmSample (i : Nat) : Int :=
  let b := 255 - i % 256
  let e := b / 16 % 8
  let mant := b % 16
  let mag : Int := (((mant * 8 + BIAS) * 2 ^ e : Nat) : Int) - (BIAS : Int)
  if 128 ≤ b then -mag else mag

/-- `AudioCodec.ulaw2pcm`: one table lookup per byte. -/
def ulaw2pcm (data : List Nat) : List Int := data.map ulaw2pcmSample

/-- Clipped magnitude of a sample in `AudioCodec.pcm2ulaw`:
`if (sample < 0) sample = -sample; if (sample > CLIP) sample = CLIP`. -/
def ulawMag (s : Int) : Nat := if CLIP < s.natAbs then CLIP else s.natAbs

/-- The exponent computed by `AudioCodec.pcm2ulaw`:
`exponent = Math.floor(Math.log2(sample + BIAS)) - 7` on the clipped
magnitude. -/
def ulawExp (s : Int) : Nat := Nat.log2 (ulawMag s + BIAS) - 7

/-- The mantissa computed by `AudioCodec.pcm2ulaw`:
`mantissa = (sample >> (exponent + 3)) & 0x0f` on the biased clipped
magnitude. -/
def ulawMant (s : Int) : Nat := (ulawMag s + BIAS) / 2 ^ (ulawExp s + 3) % 16

/-- μ-law encode of one 16-bit sample, as in the loop body of
`AudioCodec.pcm2ulaw`: `ulaw[i] = ~(sign | (exponent << 4) | mantissa) & 0xff`.
The three fields occupy disjoint bits (sign bit 7, exponent ≤ 7 in bits
4–6, mantissa in bits 0–3), so the bitwise or is a sum. -/
def pcm2ulawSample (s : Int) : Nat :=
  let sign : Nat := if s < 0 then 128 else 0
  255 - (sign + ulawExp s * 16 + ulawMant s)

/-- `AudioCodec.pcm2ulaw` over a frame. -/
def pcm2ulaw (samples : List Int) : List Nat := samples.map pcm2ulawSample

/-- The codec's quantization step at a sample's magnitude: within μ-law
segment `e` the representable decode levels are spaced `2 ^ (e + 3)`
apart (the mantissa weight `8 << e`). -/
def quantStep (s : Int) : Int := ((2 ^ (ulawExp s + 3) : Nat) : Int)

/-- Sum of squared samples, the accumulator of `AudioCodec.calculateRMS`. -/
def sumSquares (pcm : List Int) : Int := (pcm.map (fun s => s * s)).sum

/-- `BARGE_IN_THRESHOLD = 5000`. -/
def BARGE_IN_THRESHOLD : Int := 5000

/-- The barge-in test `calculateRMS(pcm8k) > BARGE_IN_THRESHOLD` of the
media handler.  `calculateRMS` returns `Math.sqrt(sumSquares / n)` (and `0`
for an empty frame); since square root is strictly monotone,
`sqrt (S / n) > 5000 ↔ S > 5000² · n` (for `n = 0` both sides are false),
which avoids real arithmetic in the model. -/
def rmsExceedsBargeThreshold (pcm : List Int) : Bool :=
  decide (BARGE_IN_THRESHOLD * BARGE_IN_THRESHOLD * pcm.length < sumSquares pcm)

/-- Value at output index `j` of the fixed 8000→24000 upsampling loop of
`AudioCodec.resample`: for `i = j / 3 < n - 1` the loop writes
`s1`, `Math.floor((2*s1 + s2)/3)`, `Math.floor((s1 + 2*s2)/3)` at
`3i, 3i+1, 3i+2`; the trailing index `n - 1` gets the last sample three
times. -/
def upsample3At (s : List Int) (j : Nat) : Int :=
  let i := j / 3
  if i + 1 < s.length then
    let s1 := s.getD i 0
    let s2 := s.getD (i + 1) 0
    if j % 3 = 0 then toInt16 s1
    else if j % 3 = 1 then toInt16 ((2 * s1 + s2).fdiv 3)
    else toInt16 ((s1 + 2 * s2).fdiv 3)
  else toInt16 (s.getD i 0)

/-- The fixed 8000→24000 branch of `AudioCodec.resample`: an output array
of `3 * n` samples (for `n = 0` the loop body's writes land at negative
indices, which a JS typed array ignores, and the output is empty). -/
def upsample3 (s : List Int) : List Int :=
  (List.range (3 * s.length)).map (upsample3At s)

/-- Value at output index `i` of the fixed 24000→8000 downsampling loop of
`AudioCodec.resample`: `Math.floor((s[3i] + s[3i+1] + s[3i+2]) / 3)`. -/
def downsample3At (s : List Int) (i : Nat) : Int :=
  toInt16 ((s.getD (3 * i) 0 + s.getD (3 * i + 1) 0 + s.getD (3 * i + 2) 0).fdiv 3)

/-- The fixed 24000→8000 branch of `AudioCodec.resample`: `⌊n / 3⌋` output
samples, remainder dropped. -/
def downsample3 (s : List Int) : List Int :=
  (List.range (s.length / 3)).map (downsample3At s)

/-- The generic linear-interpolation branch of `AudioCodec.resample`,
with the JS floating-point time axis idealized as exact rationals.
Out-of-range typed-array reads are modelled by `getD _ 0` (they can only
occur for degenerate rate pairs never used by the program). -/
def genericResample (samples : List Int) (fromRate toRate : Nat) : List Int :=
  let rq : ℚ := (toRate : ℚ) / (fromRate : ℚ)
  let outputLength : Nat := (Int.floor ((samples.length : ℚ) * rq)).toNat
  (List.range outputLength).map (fun i =>
    let srcIndex : ℚ := (i : ℚ) / rq
    let srcIndexFloor : Int := Int.floor srcIndex
    let srcIndexCeil : Int := min (srcIndexFloor + 1) ((samples.length : Int) - 1)
    let fraction : ℚ := srcIndex - (srcIndexFloor : ℚ)
    let sample1 := samples.getD srcIndexFloor.toNat 0
    let sample2 := samples.getD srcIndexCeil.toNat 0
    toInt16 (Int.floor ((sample1 : ℚ) + fraction * ((sample2 : ℚ) - (sample1 : ℚ)))))

/-- `AudioCodec.resample`: identity on equal rates, then the two fixed
fast paths, then the generic path. -/
def resample (samples : List Int) (fromRate toRate : Nat) : List Int :=
  if fromRate = toRate then samples
  else if fromRate = 8000 ∧ toRate = 24000 then upsample3 samples
  else if fromRate = 24000 ∧ toRate = 8000 then downsample3 samples
  else genericResample samples fromRate toRate

/-! ## Tool registry (`toolRegistry.ts`) -/

/-- `ToolResult`: a plain record; absent JS fields are `none`. -/
structure ToolResult where
  success : Option Bool := none
  message : Option String := none
  action : Option String := none
  reason : Option String := none
  error : Option String := none
deriving DecidableEq, Repr

/-- `ToolRegistry.executeTool`: dispatch by name.  `args` models the JS
argument record as a partial map from field name to value (the one
consulted field, `reason`, is free text). -/
def executeTool (toolName : String) (args : String → Option String) : ToolResult :=
  if toolName = "end_call" then
    { action := some "end_call", reason := args "reason", message := some "Ending call..." }
  else
    { error := some ("Unknown tool: " ++ toolName) }

/-! ## Call session orchestrator (the Twilio media-stream handler)

One handler invocation (`handleCallWebSocket`) owns one telephony
connection.  The model is a state machine driven by the inbound events the
handler reacts to (`start`, `media`, `stop` frames, turn-complete signals
from the Gemini receive loop) plus explicit passage of simulated time,
which fires due timers.  `setTimeout` timers are stored as absolute
deadlines; the two named timers (`silenceTimer`, `maxDurationTimer`) are
cancellable and the anonymous delayed `endCall` timeouts (turn limit,
goodbye, tool action) are not cancelled by anything in the source, so they
live in a separate pending list until they fire. -/

/-- `MAX_CALL_DURATION = 5 * 60 * 1000`. -/
def MAX_CALL_DURATION : Nat := 5 * 60 * 1000

/-- `SILENCE_TIMEOUT = 15 * 1000`. -/
def SILENCE_TIMEOUT : Nat := 15 * 1000

/-- The `track` field of a Twilio `media` event. -/
inductive Track | inbound | outbound
deriving DecidableEq, Repr

/-- Messages the handler sends out, over either connection, in send order:
`clear` and `media` frames to the Twilio socket, audio chunks and text
turns to the Gemini client. -/
inductive OutMsg
  | clearOut (streamSid : String)
  | mediaOut (streamSid : String) (payload : List Nat)
  | audioFwd (pcm : List Int)
  | textFwd (text : String)
deriving DecidableEq, Repr

/-- State of the Twilio WebSocket as the handler can observe and affect
it: open, or closed/closing with the code and reason the handler passed. -/
inductive WsState
  | isOpen
  | closed (code : Nat) (reason : String)
deriving DecidableEq, Repr

/-- The mutable `CallSession` record (conversation log and per-call
parameters kept; `twilioWs` lives in `Orch`). -/
structure CallSession where
  callSid : String
  streamSid : String
  phoneNumber : String
  voiceId : String
  conversationLog : List (String × String) := []
  startTime : Nat
  lastActivityTime : Nat
  isActive : Bool
  aiTurnCount : Nat
deriving DecidableEq, Repr

/-- Whole-handler state: the session (plus the handler's own timer
variables and the process-wide pieces it touches).  `registry` is the key
set of the process-wide `activeSessions` map; `geminiReady` is
`geminiClient.isConnected()` (socket present, open, setup complete);
`pending` holds not-yet-fired anonymous delayed `endCall` timeouts as
`(absolute fire time, reason)`; `sent` logs every outbound message in
order; `endedReasons` logs the reason of each `endCall` run that passed
the `if (!session) return` guard, in order. -/
structure Orch where
  now : Nat := 0
  sess : Option CallSession := none
  silenceDeadline : Option Nat := none
  maxDeadline : Option Nat := none
  pending : List (Nat × String) := []
  registry : List String := []
  geminiReady : Bool := false
  twilioWs : WsState := .isOpen
  sent : List OutMsg := []
  endedReasons : List String := []
deriving DecidableEq, Repr

/-- The handler's initial state: no session, no timers, Twilio socket
open, Gemini not yet connected. -/
def initOrch : Orch := {}

/-- `endCall(reason)`: guarded by `if (!session) return`; clears the
active flag and both named timers, closes the Gemini client
(`geminiClient.close()` is idempotent: it does nothing when the socket is
already gone), closes the Twilio socket with code 1000 only when its
`readyState` is still `OPEN`, and deletes the call id from
`activeSessions`.  The pending anonymous timeouts are *not* cancelled. -/
def endCall (reason : String) (s : Orch) : Orch :=
  match s.sess with
  | none => s
  | some sess =>
    { s with
      sess := some { sess with isActive := false },
      silenceDeadline := none,
      maxDeadline := none,
      geminiReady := false,
      twilioWs := match s.twilioWs with
        | .isOpen => .closed 1000 "Call ended"
        | w => w,
      registry := s.registry.filter (fun c => c ≠ sess.callSid),
      endedReasons := s.endedReasons ++ [reason] }

/-- `getCallScript().openingMessage`. -/
def openingMessage : String := "Hi! This is an AI demo calling system. How are you today?"

/-- `handleStart` on a `start` event, in the successful-connect case: the
Gemini link is connected (ready), the session record is created and
registered, the max-duration timer is armed, the receive loop starts, and
the opening greeting is sent as a text turn.  Note: the silence timer is
*not* armed here — only `handleMedia` arms it. -/
def handleStart (callSid streamSid phoneNumber voiceId : String) (s : Orch) : Orch :=
  { s with
    geminiReady := true,
    sess := some
      { callSid, streamSid, phoneNumber, voiceId,
        conversationLog := [],
        startTime := s.now, lastActivityTime := s.now,
        isActive := true, aiTurnCount := 0 },
    registry := callSid :: s.registry.filter (fun c => c ≠ callSid),
    maxDeadline := some (s.now + MAX_CALL_DURATION),
    sent := s.sent ++ [OutMsg.textFwd openingMessage] }

/-- `handleMedia` on a `media` event: returns unless a session exists and
the track is `inbound`; refreshes `lastActivityTime`, re-arms the silence
timer, decodes the μ-law payload, sends exactly one `clear` frame when the
RMS energy exceeds the barge-in threshold, then — only if the Gemini link
is connected — upsamples to 24 kHz and forwards the audio. -/
def handleMedia (track : Track) (payload : List Nat) (s : Orch) : Orch :=
  match s.sess with
  | none => s
  | some sess =>
    if track ≠ Track.inbound then s
    else
      let pcm8k := ulaw2pcm payload
      { s with
        sess := some { sess with lastActivityTime := s.now },
        silenceDeadline := some (s.now + SILENCE_TIMEOUT),
        sent := s.sent
          ++ (if rmsExceedsBargeThreshold pcm8k then [OutMsg.clearOut sess.streamSid] else [])
          ++ (if s.geminiReady then [OutMsg.audioFwd (resample pcm8k 8000 24000)] else []) }

/-- `handleStop`: `await endCall('completed')`. -/
def handleStop (s : Orch) : Orch := endCall "completed" s

/-- The `turnComplete` branch of the Gemini receive loop, which only runs
while `session.isActive`: increment `aiTurnCount`; once it reaches 5,
schedule `endCall('completed')` two seconds out. -/
def handleTurnComplete (s : Orch) : Orch :=
  match s.sess with
  | none => s
  | some sess =>
    if sess.isActive then
      let sess' := { sess with aiTurnCount := sess.aiTurnCount + 1 }
      if 5 ≤ sess'.aiTurnCount then
        { s with sess := some sess', pending := s.pending ++ [(s.now + 2000, "completed")] }
      else { s with sess := some sess' }
    else s

/-- A due-timer candidate: deadline, the reason its `endCall` carries, and
a tag identifying which timer it is (0 = silence, 1 = max duration,
`2 + i` = pending entry `i`). -/
structure TimerHit where
  deadline : Nat
  reason : String
  tag : Nat
deriving DecidableEq, Repr

/-- All armed timers of a state. -/
def timerHits (s : Orch) : List TimerHit :=
  (match s.silenceDeadline with
    | some d => [⟨d, "silence_timeout", 0⟩]
    | none => []) ++
  (match s.maxDeadline with
    | some d => [⟨d, "max_duration", 1⟩]
    | none => []) ++
  s.pending.enum.map (fun p => ⟨p.2.1, p.2.2, 2 + p.1⟩)

/-- First timer with the least deadline (earliest-registered wins ties,
matching the runtime's timer queue for the traces modelled here). -/
def pickMin : List TimerHit → Option TimerHit
  | [] => none
  | h :: t =>
    match pickMin t with
    | none => some h
    | some m => if h.deadline ≤ m.deadline then some h else some m

/-- Disarm the timer named by a tag (a fired `setTimeout` is spent). -/
def removeTimer (tag : Nat) (s : Orch) : Orch :=
  if tag = 0 then { s with silenceDeadline := none }
  else if tag = 1 then { s with maxDeadline := none }
  else { s with pending := s.pending.eraseIdx (tag - 2) }

/-- Number of armed timers; an upper bound on how many can fire. -/
def timerCount (s : Orch) : Nat :=
  (if s.silenceDeadline.isSome then 1 else 0) +
  (if s.maxDeadline.isSome then 1 else 0) + s.pending.length

/-- Fire every due timer (deadline ≤ current time), earliest first; each
firing spends the timer and runs `endCall` with its reason.  Fuel bounds
the iteration: each step removes at least one armed timer and arms none. -/
def fireDue : Nat → Orch → Orch
  | 0, s => s
  | fuel + 1, s =>
    match pickMin (timerHits s) with
    | none => s
    | some h =>
      if h.deadline ≤ s.now then fireDue fuel (endCall h.reason (removeTimer h.tag s))
      else s

/-- Let `dt` milliseconds of simulated time pass, then fire due timers. -/
def tick (dt : Nat) (s : Orch) : Orch :=
  let s' := { s with now := s.now + dt }
  fireDue (timerCount s' + 1) s'

/-- The inbound events that drive one handler. -/
inductive Ev
  | start (callSid streamSid phoneNumber voiceId : String)
  | media (track : Track) (payload : List Nat)
  | stop
  | turnComplete
  | tick (dt : Nat)
deriving Repr

/-- One step of the handler. -/
def step (s : Orch) (e : Ev) : Orch :=
  match e with
  | .start c ss p v => handleStart c ss p v s
  | .media t p => handleMedia t p s
  | .stop => handleStop s
  | .turnComplete => handleTurnComplete s
  | .tick dt => tick dt s

/-- Run the handler over an event trace. -/
def run (s : Orch) (es : List Ev) : Orch := es.foldl step s

/-! ## Statements of the spec's properties (used by the claims below) -/

/-- Every component of the handler state except the `endedReasons` log
(which records each time the `endCall` body ran, mirroring its log
line). -/
def coreView (s : Orch) :
    Nat × Option CallSession × Option Nat × Option Nat × List (Nat × String) ×
      List String × Bool × WsState × List OutMsg :=
  (s.now, s.sess, s.silenceDeadline, s.maxDeadline, s.pending, s.registry,
   s.geminiReady, s.twilioWs, s.sent)

/-- μ-law round-trip: same length, and each decoded sample within the
codec's quantization step of the original. -/
def C3Post (frame : List Int) : Prop :=
  (ulaw2pcm (pcm2ulaw frame)).length = frame.length ∧
  ∀ i, i < frame.length →
    |(ulaw2pcm (pcm2ulaw frame)).getD i 0 - frame.getD i 0| ≤ quantStep (frame.getD i 0)

/-- Barge-in behaviour of one inbound media frame whose energy exceeds
the threshold: the newly emitted messages start with exactly one `clear`
frame, the audio forward (present only when the Gemini link is ready)
comes after it, and when the link is not ready nothing but the `clear`
frame is emitted. -/
def C5Post (s : Orch) (sess : CallSession) (payload : List Nat) : Prop :=
  ((handleMedia Track.inbound payload s).sent.drop s.sent.length).head?
      = some (OutMsg.clearOut sess.streamSid) ∧
  (((handleMedia Track.inbound payload s).sent.drop s.sent.length).filter
      (fun m => match m with | OutMsg.clearOut _ => true | _ => false)).length = 1 ∧
  (handleMedia Track.inbound payload s).sent.drop s.sent.length
    = [OutMsg.clearOut sess.streamSid]
      ++ (if s.geminiReady then [OutMsg.audioFwd (resample (ulaw2pcm payload) 8000 24000)]
          else []) ∧
  (s.geminiReady = false →
    (handleMedia Track.inbound payload s).sent.drop s.sent.length
      = [OutMsg.clearOut sess.streamSid])

/-- The 8000→24000 fixed-ratio upsampling contract: three output samples
per input sample; each consecutive input pair `(s1, s2)` yields
`s1, ⌊(2·s1 + s2)/3⌋, ⌊(s1 + 2·s2)/3⌋`; the final input sample is
repeated three times; a constant frame resamples to that constant. -/
def C6Post (xs : List Int) : Prop :=
  (resample xs 8000 24000).length = 3 * xs.length ∧
  (∀ i, i + 1 < xs.length →
    (resample xs 8000 24000).getD (3 * i) 0 = xs.getD i 0 ∧
    (resample xs 8000 24000).getD (3 * i + 1) 0
      = (2 * xs.getD i 0 + xs.getD (i + 1) 0).fdiv 3 ∧
    (resample xs 8000 24000).getD (3 * i + 2) 0
      = (xs.getD i 0 + 2 * xs.getD (i + 1) 0).fdiv 3) ∧
  (∀ k, k < 3 → xs ≠ [] →
    (resample xs 8000 24000).getD (3 * (xs.length - 1) + k) 0
      = xs.getD (xs.length - 1) 0) ∧
  (∀ c, (∀ x ∈ xs, x = c) → ∀ y ∈ resample xs 8000 24000, y = c)

/-- The 24000→8000 fixed-ratio downsampling contract: `⌊n/3⌋` output
samples, the `i`-th being the floor average of the `i`-th input triple
(the trailing remainder contributes nothing). -/
def C7Post (xs : List Int) : Prop :=
  (resample xs 24000 8000).length = xs.length / 3 ∧
  ∀ i, i < xs.length / 3 →
    (resample xs 24000 8000).getD i 0
      = (xs.getD (3 * i) 0 + xs.getD (3 * i + 1) 0 + xs.getD (3 * i + 2) 0).fdiv 3

/-! ## Helper lemmas -/

theorem toInt16_eq_self {x : Int} (h1 : -32768 ≤ x) (h2 : x ≤ 32767) :
    toInt16 x = x := by
  unfold toInt16; omega

theorem getD_mem {xs : List Int} {i : Nat} (h : i < xs.length) : xs.getD i 0 ∈ xs := by
  rw [List.getD_eq_getElem?_getD, List.getElem?_eq_getElem h]
  exact List.getElem_mem h

theorem fdiv3_bounds {a : Int} (h1 : -98304 ≤ a) (h2 : a ≤ 98301) :
    -32768 ≤ a.fdiv 3 ∧ a.fdiv 3 ≤ 32767 := by
  rw [Int.fdiv_eq_ediv _ (by norm_num)]
  omega

theorem fdiv3_cancel (c : Int) : (3 * c).fdiv 3 = c := by
  rw [Int.fdiv_eq_ediv _ (by norm_num)]
  omega

theorem filter_ne_self (cs : String) (l : List String) :
    (cs :: l).filter (fun c => c ≠ cs) = l.filter (fun c => c ≠ cs) := by
  simp

theorem upsample3_getD (xs : List Int) (j : Nat) (h : j < 3 * xs.length) :
    (upsample3 xs).getD j 0 = upsample3At xs j := by
  unfold upsample3
  rw [List.getD_eq_getElem?_getD, List.getElem?_map, List.getElem?_range h]
  rfl

theorem downsample3_getD (xs : List Int) (i : Nat) (h : i < xs.length / 3) :
    (downsample3 xs).getD i 0 = downsample3At xs i := by
  unfold downsample3
  rw [List.getD_eq_getElem?_getD, List.getElem?_map, List.getElem?_range h]
  rfl

theorem resample_8k_24k (xs : List Int) : resample xs 8000 24000 = upsample3 xs := by
  simp [resample]

theorem resample_24k_8k (xs : List Int) : resample xs 24000 8000 = downsample3 xs := by
  simp [resample]

theorem getD_map_of_lt {α β : Type} (f : α → β) (l : List α) (i : Nat) (da : α) (db : β)
    (h : i < l.length) : (l.map f).getD i db = f (l.getD i da) := by
  rw [List.getD_eq_getElem?_getD, List.getD_eq_getElem?_getD, List.getElem?_map,
    List.getElem?_eq_getElem h]
  rfl

theorem ulawMag_le (s : Int) : ulawMag s ≤ CLIP := by
  unfold ulawMag; split <;> omega

theorem ulawMant_lt (s : Int) : ulawMant s < 16 := Nat.mod_lt _ (by norm_num)

/-- Segment bounds for the encoder's exponent: `e ≤ 7` and the biased
clipped magnitude lies in `[2^(e+7), 2^(e+8))` (this is what
`Math.floor(Math.log2 m) - 7` computes for `m ∈ [132, 32767]`). -/
theorem ulawExp_spec (s : Int) :
    ulawExp s ≤ 7 ∧
    2 ^ (ulawExp s + 7) ≤ ulawMag s + BIAS ∧
    ulawMag s + BIAS < 2 ^ (ulawExp s + 8) := by
  have hub : ulawMag s ≤ CLIP := ulawMag_le s
  have hm1 : 132 ≤ ulawMag s + BIAS := by unfold BIAS; omega
  have hm2 : ulawMag s + BIAS ≤ 32767 := by unfold BIAS CLIP at *; omega
  have hm0 : ulawMag s + BIAS ≠ 0 := by omega
  have hL7 : 7 ≤ Nat.log2 (ulawMag s + BIAS) := by
    refine (Nat.le_log2 hm0).mpr ?_
    norm_num
    omega
  have hL14 : Nat.log2 (ulawMag s + BIAS) < 15 := by
    refine (Nat.log2_lt hm0).mpr ?_
    norm_num
    omega
  have hself : 2 ^ Nat.log2 (ulawMag s + BIAS) ≤ ulawMag s + BIAS := Nat.log2_self_le hm0
  have hlt : ulawMag s + BIAS < 2 ^ (Nat.log2 (ulawMag s + BIAS) + 1) := Nat.lt_log2_self
  unfold ulawExp
  refine ⟨by omega, ?_, ?_⟩
  · rw [show Nat.log2 (ulawMag s + BIAS) - 7 + 7 = Nat.log2 (ulawMag s + BIAS) by omega]
    exact hself
  · rw [show Nat.log2 (ulawMag s + BIAS) - 7 + 8 = Nat.log2 (ulawMag s + BIAS) + 1 by omega]
    exact hlt

/-- Pure arithmetic core of the μ-law round-trip bound, on the magnitude
side: from the segment bounds, the decoded magnitude
`(mantissa·8 + BIAS)·2^e − BIAS` is within `2^(e+2)` of the clipped
magnitude, hence within the segment step `2^(e+3)` of the original
magnitude (the clip itself costs at most 133 in segment 7). -/
theorem ulaw_mag_arith (mag magc m e K q r : Nat)
    (hmag : mag ≤ 32768)
    (hmagc : magc = if CLIP < mag then CLIP else mag)
    (hm : m = magc + BIAS)
    (hK : K = 2 ^ (e + 3))
    (hlow : 2 ^ (e + 7) ≤ m)
    (hhigh : m < 2 ^ (e + 8))
    (hq : q = m / K) (hr : r = m % K) :
    |((((q % 16) * 8 + BIAS) * 2 ^ e : Nat) : Int) - (BIAS : Int) - (mag : Int)|
      ≤ (K : Int) := by
  simp only [BIAS, CLIP] at *
  have hK0 : 0 < K := by rw [hK]; positivity
  have hp47 : 2 ^ (e + 7) = 16 * K := by
    rw [hK, show e + 7 = e + 3 + 4 by omega, pow_add]; ring
  have hp48 : 2 ^ (e + 8) = 32 * K := by
    rw [hK, show e + 8 = e + 3 + 5 by omega, pow_add]; ring
  rw [hp47] at hlow
  rw [hp48] at hhigh
  have hq16 : 16 ≤ q := hq ▸ (Nat.le_div_iff_mul_le hK0).mpr hlow
  have hq32 : q < 32 := hq ▸ (Nat.div_lt_iff_lt_mul hK0).mpr hhigh
  have hqr : K * q + r = m := by rw [hq, hr]; exact Nat.div_add_mod m K
  have hrK : r < K := by rw [hr]; exact Nat.mod_lt _ hK0
  have hq16' : q % 16 = q - 16 := by omega
  have hcast : ((((q % 16) * 8 + 132) * 2 ^ e : Nat) : Int)
      = ((q : Int) - 16) * 8 * (2 : Int) ^ e + 132 * (2 : Int) ^ e := by
    rw [hq16']
    push_cast [Nat.cast_sub hq16]
    ring
  have hKint : (K : Int) = 8 * (2 : Int) ^ e := by
    rw [hK]; push_cast [pow_add]; ring
  have hqr_int : (K : Int) * (q : Int) + (r : Int) = (m : Int) := by exact_mod_cast hqr
  rw [hKint] at hqr_int
  have hrK_int : (r : Int) < 8 * (2 : Int) ^ e := by
    calc (r : Int) < (K : Int) := by exact_mod_cast hrK
    _ = 8 * (2 : Int) ^ e := hKint
  have hr0 : (0 : Int) ≤ (r : Int) := Int.natCast_nonneg r
  have hA0 : (0 : Int) < (2 : Int) ^ e := by positivity
  rw [hcast, hKint, abs_le]
  push_cast
  rcases le_or_lt mag 32635 with hcase | hcase
  · -- unclipped: magc = mag
    have hmagc' : magc = mag := by rw [hmagc, if_neg (by omega)]
    have hmag_int : (mag : Int) = (m : Int) - 132 := by omega
    have key : ((q : Int) - 16) * 8 * (2 : Int) ^ e + 132 * (2 : Int) ^ e - 132 - (mag : Int)
        = 4 * (2 : Int) ^ e - (r : Int) := by
      linear_combination hqr_int - hmag_int
    constructor <;> linarith [key, hrK_int, hr0, hA0]
  · -- clipped: magc = CLIP, forcing segment 7
    have hmagc' : magc = 32635 := by rw [hmagc, if_pos (by omega)]
    have hm' : m = 32767 := by omega
    have he7 : e = 7 := by
      have hKle : K ≤ 2047 := by omega
      have hKge : 1024 ≤ K := by omega
      by_contra hne
      rcases Nat.lt_or_ge e 7 with hlt7 | hge8
      · have : K ≤ 2 ^ 9 := by
          rw [hK]
          exact Nat.pow_le_pow_right (by norm_num) (by omega)
        norm_num at this
        omega
      · have hge8' : 8 ≤ e := by omega
        have : 2 ^ 11 ≤ K := by
          rw [hK]
          exact Nat.pow_le_pow_right (by norm_num) (by omega)
        norm_num at this
        omega
    subst he7
    rw [hK] at hq
    norm_num at hq
    rw [hm'] at hq
    norm_num at hq
    rw [hq] at hq16'
    norm_num at hq16' ⊢
    rw [hq]
    constructor <;> omega

/-- Reducing the decoder applied to the encoder's byte back to the
encoder's fields: the complement, sign bit, exponent bits and mantissa
bits of `~(sign | (e << 4) | mant) & 0xff` recover `sign`, `e` and
`mant` exactly (the fields are disjoint, `e ≤ 7`, `mant ≤ 15`). -/
theorem decode_encode_fields (s : Int) :
    ulaw2pcmSample (pcm2ulawSample s)
      = if s < 0 then
          -((((ulawMant s * 8 + BIAS) * 2 ^ ulawExp s : Nat) : Int) - (BIAS : Int))
        else
          (((ulawMant s * 8 + BIAS) * 2 ^ ulawExp s : Nat) : Int) - (BIAS : Int) := by
  obtain ⟨he7, -, -⟩ := ulawExp_spec s
  have hmant := ulawMant_lt s
  by_cases hneg : s < 0
  · simp only [pcm2ulawSample, if_pos hneg, ulaw2pcmSample]
    have hb : (255 - (128 + ulawExp s * 16 + ulawMant s)) % 256
        = 255 - (128 + ulawExp s * 16 + ulawMant s) := by omega
    simp only [hb]
    have hb2 : 255 - (255 - (128 + ulawExp s * 16 + ulawMant s))
        = 128 + ulawExp s * 16 + ulawMant s := by omega
    simp only [hb2]
    have he' : (128 + ulawExp s * 16 + ulawMant s) / 16 % 8 = ulawExp s := by omega
    have hm' : (128 + ulawExp s * 16 + ulawMant s) % 16 = ulawMant s := by omega
    have hge : 128 ≤ 128 + ulawExp s * 16 + ulawMant s := by omega
    simp only [he', hm', if_pos hge, if_pos hneg]
  · simp only [pcm2ulawSample, if_neg hneg, ulaw2pcmSample]
    have hb : (255 - (0 + ulawExp s * 16 + ulawMant s)) % 256
        = 255 - (0 + ulawExp s * 16 + ulawMant s) := by omega
    simp only [hb]
    have hb2 : 255 - (255 - (0 + ulawExp s * 16 + ulawMant s))
        = ulawExp s * 16 + ulawMant s := by omega
    simp only [hb2]
    have he' : (ulawExp s * 16 + ulawMant s) / 16 % 8 = ulawExp s := by omega
    have hm' : (ulawExp s * 16 + ulawMant s) % 16 = ulawMant s := by omega
    have hge : ¬(128 ≤ ulawExp s * 16 + ulawMant s) := by omega
    simp only [he', hm', if_neg hge, if_neg hneg]

/-- Magnitude-side round-trip bound, phrased on the encoder helpers. -/
theorem ulaw_roundtrip_mag (s : Int) (h1 : -32768 ≤ s) (h2 : s ≤ 32767) :
    |(((ulawMant s * 8 + BIAS) * 2 ^ ulawExp s : Nat) : Int) - (BIAS : Int) - (s.natAbs : Int)|
      ≤ quantStep s := by
  obtain ⟨-, hlow, hhigh⟩ := ulawExp_spec s
  have hmag : s.natAbs ≤ 32768 := by omega
  have h := ulaw_mag_arith s.natAbs (ulawMag s) (ulawMag s + BIAS) (ulawExp s)
    (2 ^ (ulawExp s + 3)) ((ulawMag s + BIAS) / 2 ^ (ulawExp s + 3))
    ((ulawMag s + BIAS) % 2 ^ (ulawExp s + 3))
    hmag rfl rfl rfl hlow hhigh rfl rfl
  unfold quantStep
  exact h

/-- Per-sample μ-law round trip: decoded sample within the quantization
step of the original, for every valid 16-bit sample. -/
theorem ulaw_roundtrip_sample (s : Int) (h1 : -32768 ≤ s) (h2 : s ≤ 32767) :
    |ulaw2pcmSample (pcm2ulawSample s) - s| ≤ quantStep s := by
  rw [decode_encode_fields]
  have hmagb := ulaw_roundtrip_mag s h1 h2
  by_cases hneg : s < 0
  · rw [if_pos hneg]
    have hna : (s.natAbs : Int) = -s := by omega
    rw [hna] at hmagb
    have heq : -((((ulawMant s * 8 + BIAS) * 2 ^ ulawExp s : Nat) : Int) - (BIAS : Int)) - s
        = -((((ulawMant s * 8 + BIAS) * 2 ^ ulawExp s : Nat) : Int) - (BIAS : Int) - -s) := by
      ring
    rw [heq, abs_neg]
    exact hmagb
  · rw [if_neg hneg]
    have hna : (s.natAbs : Int) = s := by omega
    rw [hna] at hmagb
    exact hmagb

/-! ## Claims -/

/-- C8: `resample(x, r, r)` returns the input unchanged, for every frame
and every rate (the equal-rate test is the first branch of
`AudioCodec.resample`; aliasing/no-copy is not observable in a value
model, but sample-for-sample identity is exactly `= xs`). -/
theorem resample_same_rate_identity (xs : List Int) (r : Nat) : resample xs r r = xs := by
  simp [resample]

/-- C10: resampling an empty frame yields an empty frame for every rate
pair and cannot fail: the equal-rate branch returns the input, the fixed
8000→24000 branch allocates `3·0` outputs (the boundary writes of the
source land at negative typed-array indices and are dropped), the fixed
24000→8000 branch allocates `⌊0/3⌋` outputs, and the generic branch
computes `⌊0 · ratio⌋ = 0` outputs, reading no source sample. -/
theorem resample_empty_total (fromRate toRate : Nat) : resample [] fromRate toRate = [] := by
  unfold resample upsample3 downsample3 genericResample
  simp

/-- C9: `executeTool` never throws — it is a total function into
`ToolResult`: the built-in `"end_call"` name returns the `end_call`
action tag and the human-readable confirmation message, and every other
name returns an error-shaped record carrying an "Unknown tool" error. -/
theorem executeTool_total_dispatch (name : String) (args : String → Option String)
    (h : name ≠ "end_call") :
    (executeTool "end_call" args).action = some "end_call" ∧
    (executeTool "end_call" args).message = some "Ending call..." ∧
    executeTool name args = { error := some ("Unknown tool: " ++ name) } := by
  refine ⟨rfl, rfl, ?_⟩
  simp [executeTool, h]

/-- Witness for C9 at the unregistered name `"horoscope"`. -/
theorem executeTool_total_dispatch_witness :
    (("horoscope" : String) ≠ "end_call") ∧
    ((executeTool "end_call" (fun _ => none)).action = some "end_call" ∧
     (executeTool "end_call" (fun _ => none)).message = some "Ending call..." ∧
     executeTool "horoscope" (fun _ => none)
       = { error := some ("Unknown tool: " ++ "horoscope") }) :=
  ⟨by decide, executeTool_total_dispatch "horoscope" (fun _ => none) (by decide)⟩

/-- C3: μ-law round trip (`ulaw2pcm ∘ pcm2ulaw`) preserves frame length
and reproduces every valid 16-bit sample to within the codec's
quantization step at that sample's magnitude — lossy but per-sample
bounded. -/
theorem ulaw_roundtrip_bounded (frame : List Int)
    (hv : ∀ x ∈ frame, -32768 ≤ x ∧ x ≤ 32767) : C3Post frame := by
  constructor
  · simp [ulaw2pcm, pcm2ulaw]
  · intro i hi
    have hmap : ulaw2pcm (pcm2ulaw frame)
        = frame.map (fun x => ulaw2pcmSample (pcm2ulawSample x)) := by
      simp [ulaw2pcm, pcm2ulaw, List.map_map]
    rw [hmap, getD_map_of_lt _ _ _ 0 0 hi]
    obtain ⟨hl, hr⟩ := hv _ (getD_mem hi)
    exact ulaw_roundtrip_sample _ hl hr

/-- Witness for C3 on a frame hitting zero, both signs and both 16-bit
extremes. -/
theorem ulaw_roundtrip_bounded_witness :
    (∀ x ∈ [(1000 : Int), -1000, 0, 32767, -32768], -32768 ≤ x ∧ x ≤ 32767) ∧
    C3Post [1000, -1000, 0, 32767, -32768] :=
  ⟨by decide, ulaw_roundtrip_bounded _ (by decide)⟩

/-- C6: the fixed 8000→24000 branch of `resample` emits exactly three
output samples per input sample, with the interpolation pattern
`s1, ⌊(2·s1 + s2)/3⌋, ⌊(s1 + 2·s2)/3⌋` on consecutive pairs, the final
sample repeated three times, and constant frames left constant. -/
theorem upsample_fixed_ratio (xs : List Int)
    (hv : ∀ x ∈ xs, -32768 ≤ x ∧ x ≤ 32767) : C6Post xs := by
  rw [C6Post, resample_8k_24k]
  refine ⟨by simp [upsample3], ?_, ?_, ?_⟩
  · intro i hi
    have hiL : i < xs.length := by omega
    obtain ⟨b1l, b1r⟩ := hv _ (getD_mem hiL)
    obtain ⟨b2l, b2r⟩ := hv _ (getD_mem hi)
    refine ⟨?_, ?_, ?_⟩
    · rw [upsample3_getD xs (3 * i) (by omega)]
      have e1 : 3 * i / 3 = i := by omega
      have e2 : 3 * i % 3 = 0 := by omega
      simp only [upsample3At, e1, e2, if_pos hi, if_pos rfl]
      exact toInt16_eq_self b1l b1r
    · rw [upsample3_getD xs (3 * i + 1) (by omega)]
      have e1 : (3 * i + 1) / 3 = i := by omega
      have e2 : (3 * i + 1) % 3 = 1 := by omega
      obtain ⟨dl, dr⟩ := fdiv3_bounds
        (a := 2 * xs.getD i 0 + xs.getD (i + 1) 0) (by omega) (by omega)
      simp only [upsample3At, e1, e2, if_pos hi]
      rw [if_pos trivial]
      exact toInt16_eq_self dl dr
    · rw [upsample3_getD xs (3 * i + 2) (by omega)]
      have e1 : (3 * i + 2) / 3 = i := by omega
      have e2 : (3 * i + 2) % 3 = 2 := by omega
      obtain ⟨dl, dr⟩ := fdiv3_bounds
        (a := xs.getD i 0 + 2 * xs.getD (i + 1) 0) (by omega) (by omega)
      simp only [upsample3At, e1, e2, if_pos hi]
      rw [if_neg (by norm_num : ¬(2 : Nat) = 0), if_neg (by norm_num : ¬(2 : Nat) = 1)]
      exact toInt16_eq_self dl dr
  · intro k hk hne
    have hn : 0 < xs.length := List.length_pos.mpr hne
    rw [upsample3_getD xs (3 * (xs.length - 1) + k) (by omega)]
    have e1 : (3 * (xs.length - 1) + k) / 3 = xs.length - 1 := by omega
    have hno : ¬(xs.length - 1 + 1 < xs.length) := by omega
    obtain ⟨bl, br⟩ := hv _ (getD_mem (show xs.length - 1 < xs.length by omega))
    simp only [upsample3At, e1, if_neg hno]
    exact toInt16_eq_self bl br
  · intro c hc y hy
    rw [upsample3, List.mem_map] at hy
    obtain ⟨j, hj, rfl⟩ := hy
    rw [List.mem_range] at hj
    have hiL : j / 3 < xs.length := by omega
    have hs1 : xs.getD (j / 3) 0 = c := hc _ (getD_mem hiL)
    have hbc : -32768 ≤ c ∧ c ≤ 32767 := hs1 ▸ hv _ (getD_mem hiL)
    by_cases h1 : j / 3 + 1 < xs.length
    · have hs2 : xs.getD (j / 3 + 1) 0 = c := hc _ (getD_mem h1)
      have e2 : (2 : Int) * c + c = 3 * c := by ring
      have e3 : c + (2 : Int) * c = 3 * c := by ring
      have : j % 3 = 0 ∨ j % 3 = 1 ∨ j % 3 = 2 := by omega
      rcases this with h | h | h <;>
        simp only [upsample3At, h, if_pos h1, hs1, hs2, e2, e3, fdiv3_cancel] <;>
        norm_num <;>
        exact toInt16_eq_self hbc.1 hbc.2
    · simp only [upsample3At, if_neg h1, hs1]
      exact toInt16_eq_self hbc.1 hbc.2

/-- Witness for C6 on the concrete frame `[1000, -2000]`. -/
theorem upsample_fixed_ratio_witness :
    (∀ x ∈ [(1000 : Int), -2000], -32768 ≤ x ∧ x ≤ 32767) ∧ C6Post [1000, -2000] :=
  ⟨by decide, upsample_fixed_ratio _ (by decide)⟩

/-- C7: the fixed 24000→8000 branch of `resample` emits `⌊n/3⌋` output
samples, each the floored average of the corresponding input triple; the
remainder is dropped. -/
theorem downsample_fixed_ratio (xs : List Int)
    (hv : ∀ x ∈ xs, -32768 ≤ x ∧ x ≤ 32767) : C7Post xs := by
  rw [C7Post, resample_24k_8k]
  refine ⟨by simp [downsample3], ?_⟩
  intro i hi
  rw [downsample3_getD xs i hi]
  have h0 : 3 * i < xs.length := by omega
  have h1 : 3 * i + 1 < xs.length := by omega
  have h2 : 3 * i + 2 < xs.length := by omega
  obtain ⟨a1l, a1r⟩ := hv _ (getD_mem h0)
  obtain ⟨a2l, a2r⟩ := hv _ (getD_mem h1)
  obtain ⟨a3l, a3r⟩ := hv _ (getD_mem h2)
  obtain ⟨dl, dr⟩ := fdiv3_bounds
    (a := xs.getD (3 * i) 0 + xs.getD (3 * i + 1) 0 + xs.getD (3 * i + 2) 0)
    (by omega) (by omega)
  unfold downsample3At
  exact toInt16_eq_self dl dr

/-- Witness for C7 on the concrete frame `[10, 20, 35, 100]`. -/
theorem downsample_fixed_ratio_witness :
    (∀ x ∈ [(10 : Int), 20, 35, 100], -32768 ≤ x ∧ x ≤ 32767) ∧ C7Post [10, 20, 35, 100] :=
  ⟨by decide, downsample_fixed_ratio _ (by decide)⟩

/-- C4: running `endCall` a second time, with any reason, leaves every
component of the handler state other than the log of `endCall` entries
unchanged — cleanup happens exactly once, and the model's `endCall` is a
total function, the source's counterpart of "does not throw". -/
theorem endCall_second_invocation_noop (s : Orch) (r1 r2 : String) :
    coreView (endCall r2 (endCall r1 s)) = coreView (endCall r1 s) := by
  rcases hs : s.sess with _ | sess
  · simp [endCall, coreView, hs]
  · rcases hw : s.twilioWs with _ | ⟨c, r⟩ <;>
      simp [endCall, coreView, hs, hw, List.filter_filter]

/-- C5: an inbound media frame whose RMS energy exceeds the barge-in
threshold causes exactly one `clear` frame, emitted first — before the
readiness check and before any audio forwarding — whatever the state of
the Gemini link; when the link is not ready, nothing but the `clear`
frame is emitted (the frame is dropped without error). -/
theorem barge_in_clear_before_forwarding (s : Orch) (sess : CallSession) (payload : List Nat)
    (hs : s.sess = some sess)
    (hrms : rmsExceedsBargeThreshold (ulaw2pcm payload) = true) :
    C5Post s sess payload := by
  unfold C5Post
  have hsent : (handleMedia Track.inbound payload s).sent
      = s.sent ++ ([OutMsg.clearOut sess.streamSid]
        ++ (if s.geminiReady then [OutMsg.audioFwd (resample (ulaw2pcm payload) 8000 24000)]
            else [])) := by
    simp [handleMedia, hs, hrms, List.append_assoc]
  rw [hsent, List.drop_left]
  cases hr : s.geminiReady <;> simp

/-- Witness for C5: a fresh session and the one-byte payload `[0x80]`,
which decodes to the sample 32124 and so exceeds the threshold. -/
theorem barge_in_clear_before_forwarding_witness :
    ((handleStart "CA1" "MZ1" "p1" "v1" initOrch).sess = some
      { callSid := "CA1", streamSid := "MZ1", phoneNumber := "p1", voiceId := "v1",
        conversationLog := [], startTime := 0, lastActivityTime := 0,
        isActive := true, aiTurnCount := 0 }) ∧
    rmsExceedsBargeThreshold (ulaw2pcm [128]) = true ∧
    C5Post (handleStart "CA1" "MZ1" "p1" "v1" initOrch)
      { callSid := "CA1", streamSid := "MZ1", phoneNumber := "p1", voiceId := "v1",
        conversationLog := [], startTime := 0, lastActivityTime := 0,
        isActive := true, aiTurnCount := 0 } [128] :=
  ⟨rfl, by decide, barge_in_clear_before_forwarding _ _ _ rfl (by decide)⟩

/-- C1 counterexample: a session created by a `start` event that never
receives a media frame has NOT ended 16 seconds later — no `endCall` ran,
the call id is still registered, the Gemini link is still up and the
Twilio socket still open.  `handleStart` never arms the silence timer;
only `handleMedia` does, so with no inbound media the silence timeout can
never fire (only wholesale the 5-minute max-duration timer would end the
call). -/
theorem silence_timeout_no_media_counterexample :
    (run initOrch [.start "CA1" "MZ1" "p1" "v1", .tick 16000]).endedReasons = [] ∧
    (run initOrch [.start "CA1" "MZ1" "p1" "v1", .tick 16000]).registry = ["CA1"] ∧
    (run initOrch [.start "CA1" "MZ1" "p1" "v1", .tick 16000]).geminiReady = true ∧
    (run initOrch [.start "CA1" "MZ1" "p1" "v1", .tick 16000]).twilioWs = WsState.isOpen ∧
    (run initOrch [.start "CA1" "MZ1" "p1" "v1", .tick 16000]).sess.map CallSession.isActive
      = some true := by
  decide

/-- C1 (amended): if the session additionally receives one inbound media
event and then nothing for 16 seconds, the silence timer (armed by that
media event) fires at the 15-second mark: the session ends with reason
"silence_timeout", the Gemini link is closed and the Twilio socket is
closed with the normal-closure code 1000. -/
theorem silence_timeout_after_media (cs ss pn v : String) (payload : List Nat) :
    (run initOrch [.start cs ss pn v, .media .inbound payload, .tick 16000]).endedReasons
      = ["silence_timeout"] ∧
    (run initOrch [.start cs ss pn v, .media .inbound payload, .tick 16000]).geminiReady
      = false ∧
    (run initOrch [.start cs ss pn v, .media .inbound payload, .tick 16000]).twilioWs
      = WsState.closed 1000 "Call ended" ∧
    (run initOrch [.start cs ss pn v, .media .inbound payload, .tick 16000]).registry = [] ∧
    (run initOrch [.start cs ss pn v, .media .inbound payload, .tick 16000]).sess.map
      CallSession.isActive = some false := by
  simp [run, step, handleStart, handleMedia, tick, fireDue, timerHits, pickMin,
    removeTimer, timerCount, endCall, initOrch, SILENCE_TIMEOUT, MAX_CALL_DURATION]

/-- C2: once the 5th AI turn completes the session is still alive but an
`endCall` is scheduled exactly 2 seconds out; when those 2 seconds pass
the session ends exactly once (a single `endCall` run, reason
"completed", the reason the turn-limit path passes), the registry no
longer holds the call id, and any further passage of time moves the clock
without touching anything else. -/
theorem turn_limit_ends_after_grace (cs ss pn v : String) (dt : Nat) :
    ((run initOrch (Ev.start cs ss pn v :: List.replicate 5 Ev.turnComplete)).sess.map
        CallSession.aiTurnCount = some 5 ∧
     (run initOrch (Ev.start cs ss pn v :: List.replicate 5 Ev.turnComplete)).sess.map
        CallSession.isActive = some true ∧
     (run initOrch (Ev.start cs ss pn v :: List.replicate 5 Ev.turnComplete)).pending
        = [(2000, "completed")]) ∧
    ((run initOrch (Ev.start cs ss pn v :: (List.replicate 5 Ev.turnComplete ++ [Ev.tick 2000]))).endedReasons
        = ["completed"] ∧
     (run initOrch (Ev.start cs ss pn v :: (List.replicate 5 Ev.turnComplete ++ [Ev.tick 2000]))).sess.map
        CallSession.isActive = some false ∧
     (run initOrch (Ev.start cs ss pn v :: (List.replicate 5 Ev.turnComplete ++ [Ev.tick 2000]))).registry
        = []) ∧
    run initOrch (Ev.start cs ss pn v :: (List.replicate 5 Ev.turnComplete ++ [Ev.tick 2000, Ev.tick dt]))
      = { run initOrch (Ev.start cs ss pn v :: (List.replicate 5 Ev.turnComplete ++ [Ev.tick 2000])) with
          now := 2000 + dt } := by
  simp [run, step, handleStart, handleTurnComplete, tick, fireDue, timerHits, pickMin,
    removeTimer, timerCount, endCall, initOrch, MAX_CALL_DURATION, List.replicate]
